import Mathlib

/-!
Verification of the MuLoom control server (`src/server/index.js`).

The development shallowly embeds the server's session-state handling
(WebSocket message dispatch), the crossfader/deck update logic, the
byte-range resolution of the `/stream/mp4/` endpoint, and the path
normalization / containment check guarding that endpoint.

JavaScript runtime values appearing in message payloads are modelled by
`MuLoom.JVal`; IEEE-754 doubles are modelled by `MuLoom.JNum` (an exact
rational together with `nan` and the two infinities — numeric strings are
parsed with arbitrary precision, an idealization of doubles that is exact
for every value appearing in the claims). Strings from the server code are
modelled as `List Char`.
-/

namespace MuLoom

/-- Model of a JavaScript number: NaN, the two infinities, or a finite
value (exact rational). JSON parsing only produces finite values; NaN and
the infinities arise through `Number(...)` coercion. -/
inductive JNum where
  | nan
  | posInf
  | negInf
  | fin (q : ℚ)
deriving DecidableEq

/-- Model of a JavaScript value as found in parsed JSON payloads plus the
values the server itself stores (which may include NaN numbers). Plain
objects are opaque (`obj`): the handlers only ever use their truthiness
and `Number(...)` coercion, both of which are constant for plain objects. -/
inductive JVal where
  | null
  | bool (b : Bool)
  | num (v : JNum)
  | str (s : List Char)
  | arr (xs : List JVal)
  | obj
deriving Inhabited

/-- JavaScript whitespace characters recognized by `String.prototype.trim`
(ASCII whitespace plus NBSP and the BOM; further exotic Unicode space
characters do not occur in any payload considered here). -/
def jsWhitespace (c : Char) : Bool :=
  c == ' ' || c == '\t' || c == '\n' || c == '\r' ||
  c == '\x0b' || c == '\x0c' || c == ' ' || c == '﻿'

/-- Model of `String.prototype.trim`: drop whitespace from both ends. -/
def jsTrim (l : List Char) : List Char :=
  ((l.dropWhile jsWhitespace).reverse.dropWhile jsWhitespace).reverse

/-- Model of `String.prototype.toLowerCase` (ASCII case mapping, which is
exact for every string compared by the server). -/
def jsToLower (l : List Char) : List Char :=
  l.map Char.toLower

/-- Numeric value of a decimal digit string (`Number` on an all-digit
string, arbitrary precision). -/
def digitsToNat (ds : List Char) : ℕ :=
  ds.foldl (fun a c => a * 10 + (c.toNat - 48)) 0

/-- Hexadecimal digit test for `0x` numeric string literals. -/
def isHexDigit (c : Char) : Bool :=
  c.isDigit || ('a' ≤ c && c ≤ 'f') || ('A' ≤ c && c ≤ 'F')

/-- Value of a hexadecimal digit. -/
def hexDigitVal (c : Char) : ℕ :=
  if c.isDigit then c.toNat - 48
  else if 'a' ≤ c && c ≤ 'f' then c.toNat - 87
  else c.toNat - 55

/-- Numeric value of a hexadecimal digit string. -/
def hexToNat (ds : List Char) : ℕ :=
  ds.foldl (fun a c => a * 16 + hexDigitVal c) 0

/-- Numeric value of a binary digit string. -/
def binToNat (ds : List Char) : ℕ :=
  ds.foldl (fun a c => a * 2 + (c.toNat - 48)) 0

/-- Numeric value of an octal digit string. -/
def octToNat (ds : List Char) : ℕ :=
  ds.foldl (fun a c => a * 8 + (c.toNat - 48)) 0

/-- Exponent tail of a decimal numeric string literal: `e`/`E`, optional
sign, then a nonempty digit string, consuming the rest of the input. -/
def parseExpTail (r : List Char) (m : ℚ) : Option ℚ :=
  match r with
  | [] => some m
  | 'e' :: r2 =>
    match r2 with
    | '+' :: ds => if ds ≠ [] ∧ ds.all Char.isDigit then some (m * 10 ^ (digitsToNat ds)) else none
    | '-' :: ds => if ds ≠ [] ∧ ds.all Char.isDigit then some (m / 10 ^ (digitsToNat ds)) else none
    | ds => if ds ≠ [] ∧ ds.all Char.isDigit then some (m * 10 ^ (digitsToNat ds)) else none
  | 'E' :: r2 =>
    match r2 with
    | '+' :: ds => if ds ≠ [] ∧ ds.all Char.isDigit then some (m * 10 ^ (digitsToNat ds)) else none
    | '-' :: ds => if ds ≠ [] ∧ ds.all Char.isDigit then some (m / 10 ^ (digitsToNat ds)) else none
    | ds => if ds ≠ [] ∧ ds.all Char.isDigit then some (m * 10 ^ (digitsToNat ds)) else none
  | _ => none

/-- Unsigned decimal numeric string literal: digits, optional fraction,
optional exponent; at least one digit must be present. -/
def parseDecimal (l : List Char) : Option ℚ :=
  let ip := l.takeWhile Char.isDigit
  let r1 := l.drop ip.length
  match r1 with
  | '.' :: r2 =>
    let fp := r2.takeWhile Char.isDigit
    let r3 := r2.drop fp.length
    if ip = [] ∧ fp = [] then none
    else parseExpTail r3 ((digitsToNat ip : ℚ) + (digitsToNat fp : ℚ) / 10 ^ fp.length)
  | _ => if ip = [] then none else parseExpTail r1 (digitsToNat ip : ℚ)

/-- Numeric string literal body that may carry a sign: a decimal literal
or `Infinity`. -/
def parseSignable (l : List Char) : Option JNum :=
  if l = "Infinity".toList then some .posInf
  else (parseDecimal l).map .fin

/-- Unsigned numeric string literal body: a signable body or a
`0x`/`0o`/`0b` non-decimal integer literal (which never carries a sign). -/
def parseAnyNum (l : List Char) : Option JNum :=
  match l with
  | '0' :: 'x' :: rest => if rest ≠ [] ∧ rest.all isHexDigit then some (.fin (hexToNat rest)) else none
  | '0' :: 'X' :: rest => if rest ≠ [] ∧ rest.all isHexDigit then some (.fin (hexToNat rest)) else none
  | '0' :: 'o' :: rest => if rest ≠ [] ∧ rest.all (fun c => '0' ≤ c && c ≤ '7') then some (.fin (octToNat rest)) else none
  | '0' :: 'O' :: rest => if rest ≠ [] ∧ rest.all (fun c => '0' ≤ c && c ≤ '7') then some (.fin (octToNat rest)) else none
  | '0' :: 'b' :: rest => if rest ≠ [] ∧ rest.all (fun c => c = '0' ∨ c = '1') then some (.fin (binToNat rest)) else none
  | '0' :: 'B' :: rest => if rest ≠ [] ∧ rest.all (fun c => c = '0' ∨ c = '1') then some (.fin (binToNat rest)) else none
  | _ => parseSignable l

/-- Negation on modelled JavaScript numbers. -/
def JNum.neg : JNum → JNum
  | .nan => .nan
  | .posInf => .negInf
  | .negInf => .posInf
  | .fin q => .fin (-q)

/-- Model of `Number(s)` for a string `s`: trim whitespace, the empty
string is 0, otherwise parse a (possibly signed) numeric literal; any
non-matching string is NaN. -/
def strToNum (s : List Char) : JNum :=
  let t := jsTrim s
  if t = [] then .fin 0
  else
    match t with
    | '+' :: r => (parseSignable r).getD .nan
    | '-' :: r => ((parseSignable r).map JNum.neg).getD .nan
    | _ => (parseAnyNum t).getD .nan

/-- Model of JavaScript `Number(v)` (the abstract `ToNumber` operation) on
the modelled value space. Arrays convert through `Array.prototype.join`:
the empty array is `""` (hence 0), a one-element array converts as its
element's string image, and two or more elements always produce a comma
(hence NaN); plain objects convert to `"[object Object]"` (hence NaN). -/
def toNumber : JVal → JNum
  | .null => .fin 0
  | .bool b => .fin (if b then 1 else 0)
  | .num v => v
  | .str s => strToNum s
  | .obj => .nan
  | .arr [] => .fin 0
  | .arr [x] =>
    match x with
    | .arr ys => toNumber (.arr ys)
    | .null => .fin 0
    | .num v => v
    | .str s => strToNum s
    | .bool _ => .nan
    | .obj => .nan
  | .arr (_ :: _ :: _) => .nan

/-- Model of JavaScript truthiness (`Boolean(v)` / `if (v)`). -/
def truthy : JVal → Bool
  | .null => false
  | .bool b => b
  | .num .nan => false
  | .num (.fin q) => decide (q ≠ 0)
  | .num _ => true
  | .str s => decide (s ≠ [])
  | .arr _ => true
  | .obj => true

/-- Model of the nullish-coalescing operator `v ?? d` applied to a value
that is statically known to be present (only `null` falls through). -/
def jvCoalesce (v d : JVal) : JVal :=
  match v with
  | .null => d
  | x => x

/-- Model of `v ?? d` where `v` may also be absent (`undefined`). -/
def optCoalesce (v : Option JVal) (d : JVal) : JVal :=
  match v with
  | none => d
  | some .null => d
  | some x => x

/-- Model of `Boolean(v)` where `v` may be absent (`undefined` is falsy). -/
def optTruthy (v : Option JVal) : Bool :=
  match v with
  | none => false
  | some x => truthy x

/-- Model of `Math.max(a, b)`: NaN-propagating maximum. -/
def jnumMax : JNum → JNum → JNum
  | .nan, _ => .nan
  | _, .nan => .nan
  | .posInf, _ => .posInf
  | _, .posInf => .posInf
  | .negInf, b => b
  | a, .negInf => a
  | .fin a, .fin b => .fin (max a b)

/-- Model of `Math.min(a, b)`: NaN-propagating minimum. -/
def jnumMin : JNum → JNum → JNum
  | .nan, _ => .nan
  | _, .nan => .nan
  | .negInf, _ => .negInf
  | _, .negInf => .negInf
  | .posInf, b => b
  | a, .posInf => a
  | .fin a, .fin b => .fin (min a b)

/-- The clamp `Math.min(1, Math.max(0, x))` used for opacities and
crossfader values. -/
def jsClamp01 (x : JNum) : JNum :=
  jnumMin (.fin 1) (jnumMax (.fin 0) x)

/-- The clamp `Math.max(0, Math.min(100, x))` used for deck media
progress. -/
def jsClamp0100 (x : JNum) : JNum :=
  jnumMax (.fin 0) (jnumMin (.fin 100) x)

/-- The four deck keys. The server stores decks in a plain object keyed by
`a`..`d`; payload-supplied keys are looked up with `decks[deck]`, which for
these four keys yields the deck and for other payload values yields a falsy
`undefined` (inherited `Object.prototype` property names, which no claim
concerns, are the one unmodelled corner). -/
inductive DeckKey where
  | a
  | b
  | c
  | d
deriving DecidableEq

/-- Resolution of a payload `deck` field to a deck key, modelling the
truthiness guard `deck && state.mixState.decks[deck]`. -/
def parseDeckKey : JVal → Option DeckKey
  | .str s =>
    if s = ['a'] then some .a
    else if s = ['b'] then some .b
    else if s = ['c'] then some .c
    else if s = ['d'] then some .d
    else none
  | _ => none

/-- Mix deck record (`defaultMixDeck` shape): `type`, `assetId`,
`opacity`, `enabled`. Fields stay `JVal` because partial updates merge raw
payload data before the invariants run. -/
structure Deck where
  type : JVal
  assetId : JVal
  opacity : JVal
  enabled : JVal

/-- `defaultMixDeck()` from the server. -/
def defaultMixDeck : Deck :=
  { type := .null, assetId := .null, opacity := .num (.fin 1), enabled := .bool false }

/-- Partial deck data from an `update-mix-deck` payload: each field is
present or absent (`message.payload?.data || {}`; spreading a falsy or
non-object value contributes none of these four keys, which is the
all-absent patch). -/
structure DeckPatch where
  type : Option JVal
  assetId : Option JVal
  opacity : Option JVal
  enabled : Option JVal

/-- The spread merge `{...state.mixState.decks[deck], ...data}` restricted
to the four deck fields: a key present in `data` (even with value `null`)
overrides, an absent key keeps the current value. -/
def applyDeckPatch (d : Deck) (p : DeckPatch) : Deck :=
  { type := p.type.getD d.type
    assetId := p.assetId.getD d.assetId
    opacity := p.opacity.getD d.opacity
    enabled := p.enabled.getD d.enabled }

/-- Test for `['shader', 'video', 'generative'].includes(current.type)`
(`includes` compares with SameValueZero, so only equal strings match). -/
def isMediaType : JVal → Bool
  | .str s => s = "shader".toList || s = "video".toList || s = "generative".toList
  | _ => false

/-- Test for `current.type === 'generative'`. -/
def isGenerativeType : JVal → Bool
  | .str s => s = "generative".toList
  | _ => false

/-- The type after the handler's first invariant step: a type outside
{shader, video, generative} is forced to null (the state of
`current.type` when the later checks read it). -/
def mixT1 (d : Deck) : JVal :=
  if isMediaType d.type then d.type else JVal.null

/-- The handler's `!current.assetId || !current.type` condition, read
after the first invariant step. -/
def mixClear (d : Deck) : Bool :=
  !truthy d.assetId || !truthy (mixT1 d)

/-- The deck invariants applied by the `update-mix-deck` handler after the
merge, in source order: (1) a type outside {shader, video, generative} is
forced to null; (2) a generative type clears `assetId`, otherwise a falsy
`assetId` or falsy type clears both; (3) opacity becomes
`Math.min(1, Math.max(0, Number(current.opacity ?? 1)))`; (4) enabled
becomes `Boolean(current.enabled)`. -/
def applyMixDeckInvariants (d : Deck) : Deck :=
  { type := if isGenerativeType (mixT1 d) then mixT1 d
            else if mixClear d then JVal.null else mixT1 d
    assetId := if isGenerativeType (mixT1 d) then JVal.null
               else if mixClear d then JVal.null else d.assetId
    opacity := .num (jsClamp01 (toNumber (jvCoalesce d.opacity (.num (.fin 1)))))
    enabled := .bool (truthy d.enabled) }

/-- Deck media state record (`defaultDeckMediaState` shape, after the
handler's coercions). -/
structure DeckMediaState where
  isPlaying : Bool
  progress : JNum
  isLoading : Bool
  error : Bool
  src : JVal

/-- `defaultDeckMediaState()` from the server. -/
def defaultDeckMediaState : DeckMediaState :=
  { isPlaying := false, progress := .fin 0, isLoading := false, error := false, src := .null }

/-- Raw `deck-media-state` payload state object (fields present or
absent). -/
structure DeckMediaPatch where
  isPlaying : Option JVal
  progress : Option JVal
  isLoading : Option JVal
  error : Option JVal
  src : Option JVal

/-- Control settings record. -/
structure ControlSettings where
  modelProvider : JVal
  audioInputMode : JVal
  prompt : JVal

/-- Partial control settings from an `update-control-settings` payload. -/
structure ControlPatch where
  modelProvider : Option JVal
  audioInputMode : Option JVal
  prompt : Option JVal

/-- Viewer status record. -/
structure ViewerStatusState where
  isRunning : JVal
  isGenerating : JVal
  error : JVal

/-- Partial viewer status from a `viewer-status` payload. -/
structure ViewerPatch where
  isRunning : Option JVal
  isGenerating : Option JVal
  error : Option JVal

/-- The four crossfader fields of `state.mixState`. -/
inductive CGField where
  | AB
  | AC
  | BD
  | CD
deriving DecidableEq

/-- Mix state: the four crossfader scalars plus the four decks. -/
structure MixState where
  crossfaderAB : JNum
  crossfaderAC : JNum
  crossfaderBD : JNum
  crossfaderCD : JNum
  decks : DeckKey → Deck

/-- Read a crossfader scalar. -/
def getCG (m : MixState) : CGField → JNum
  | .AB => m.crossfaderAB
  | .AC => m.crossfaderAC
  | .BD => m.crossfaderBD
  | .CD => m.crossfaderCD

/-- Write a crossfader scalar. -/
def setCG (m : MixState) (f : CGField) (v : JNum) : MixState :=
  match f with
  | .AB => { m with crossfaderAB := v }
  | .AC => { m with crossfaderAC := v }
  | .BD => { m with crossfaderBD := v }
  | .CD => { m with crossfaderCD := v }

/-- The whole session state (`state` in the server). -/
structure ServerState where
  fallbackLayers : JVal
  controlSettings : ControlSettings
  viewerStatus : ViewerStatusState
  mixState : MixState
  deckMediaStates : DeckKey → DeckMediaState

/-- The initial session state from the server's `state` literal. -/
def initialState : ServerState :=
  { fallbackLayers := .arr []
    controlSettings :=
      { modelProvider := .str "gemini".toList
        audioInputMode := .str "file".toList
        prompt := .str [] }
    viewerStatus := { isRunning := .bool false, isGenerating := .bool false, error := .str [] }
    mixState :=
      { crossfaderAB := .fin (1 / 2)
        crossfaderAC := .fin (1 / 2)
        crossfaderBD := .fin (1 / 2)
        crossfaderCD := .fin (1 / 2)
        decks := fun _ => defaultMixDeck }
    deckMediaStates := fun _ => defaultDeckMediaState }

/-- The `crossfaderFieldMap` object literal: own-property lookup of the
trimmed, lowercased target. Inherited `Object.prototype` property names
would yield a function here, but the subsequent `field in state.mixState`
membership check excludes them, so the composite lookup is exactly this
five-entry map. -/
def crossfaderFieldMap (t : List Char) : Option CGField :=
  if t = "main".toList then some .AB
  else if t = "ab".toList then some .AB
  else if t = "ac".toList then some .AC
  else if t = "bd".toList then some .BD
  else if t = "cd".toList then some .CD
  else none

/-- Payload of an `update-crossfader` message (`target` and `value` fields,
each possibly absent). -/
structure CrossPayload where
  target : Option JVal
  value : Option JVal

/-- The resolved crossfader field of a payload: the trimmed, lowercased
string target looked up in `crossfaderFieldMap` (non-string or absent
targets, and a falsy empty target string, resolve to nothing). -/
def crossTargetField (p : Option CrossPayload) : Option CGField :=
  match p with
  | none => none
  | some pl =>
    match pl.target with
    | some (.str t) => crossfaderFieldMap (jsToLower (jsTrim t))
    | _ => none

/-- `applyCrossfaderUpdate(payload)` from the server: `none` models the
`return false` paths (falsy payload, unusable target); on success the
named crossfader scalar is set to
`Math.min(1, Math.max(0, Number(payload.value ?? 0)))`. -/
def applyCrossfaderUpdate (s : ServerState) (p : Option CrossPayload) : Option ServerState :=
  match crossTargetField p with
  | none => none
  | some f =>
    let v := jsClamp01 (toNumber (optCoalesce ((p.map CrossPayload.value).join) (.num (.fin 0))))
    some { s with mixState := setCG s.mixState f v }

/-- A realtime connection: its identity and whether its transport is in
the OPEN state. -/
structure Conn where
  id : ℕ
  isOpen : Bool

/-- The five pure pass-through message types. -/
inductive PassKind where
  | startVisualization
  | stopVisualization
  | regenerateShader
  | setAudioSensitivity
  | codeProgress
deriving DecidableEq

/-- Outbound messages produced by the handlers. -/
inductive OutMsg where
  | mixStateMsg (ms : MixState)
  | fallbackLayersMsg (v : JVal)
  | controlSettingsMsg (cs : ControlSettings)
  | viewerStatusOut (vs : ViewerStatusState)
  | deckMediaOut (k : DeckKey) (st : DeckMediaState)
  | passThroughOut (kind : PassKind) (raw : JVal)
  | rtcSignalOut (rtc : List Char) (payload : JVal)

/-- One `broadcast(message, options)` call: the serialized message and the
optional excluded connection (`options.exclude`, compared by identity). -/
structure SendAction where
  msg : OutMsg
  exclude : Option ℕ

/-- The connections that actually receive a send: every registered
connection whose transport is open, minus the excluded one. -/
def sendRecipients (clients : List Conn) (a : SendAction) : List ℕ :=
  (clients.filter (fun c => c.isOpen && decide (a.exclude ≠ some c.id))).map Conn.id

/-- Identities of all open connections. -/
def openIds (clients : List Conn) : List ℕ :=
  (clients.filter Conn.isOpen).map Conn.id

/-- Identities of all open connections other than `sender`. -/
def openIdsExcept (clients : List Conn) (sender : ℕ) : List ℕ :=
  (clients.filter (fun c => c.isOpen && decide (c.id ≠ sender))).map Conn.id

/-- Inbound realtime messages, mirroring the `switch (message.type)`
dispatch. Payload shapes are decoded at the boundary exactly as the
handlers destructure them. -/
inductive InMsg where
  | register (role : JVal)
  | updateFallbackLayers (payload : JVal)
  | updateControlSettings (patch : ControlPatch)
  | updateMixDeck (deck : JVal) (data : DeckPatch)
  | updateCrossfader (payload : Option CrossPayload)
  | passThrough (kind : PassKind) (raw : JVal)
  | viewerStatusMsg (patch : ViewerPatch)
  | deckMediaStateMsg (deck : JVal) (payload : Option DeckMediaPatch)
  | rtcSignal (rtc : JVal) (payload : Option JVal)
  | unknownType

/-- The RTC signal kinds accepted by `handleRTCSignaling`. -/
def rtcKinds : List (List Char) :=
  ["offer".toList, "answer".toList, "ice-candidate".toList, "request-offer".toList]

/-- The `ws.on('message')` dispatch: applies one inbound message from the
connection `sender` to the session state and returns the new state
together with the broadcast calls made, in order. `register` only mutates
the connection registry's role field, not the session state. -/
def handleMessage (sender : ℕ) (s : ServerState) (m : InMsg) : ServerState × List SendAction :=
  match m with
  | .register _ => (s, [])
  | .updateFallbackLayers payload =>
    let layers := if truthy payload then payload else JVal.arr []
    let s' := { s with fallbackLayers := layers }
    (s', [⟨.fallbackLayersMsg layers, some sender⟩])
  | .updateControlSettings patch =>
    let cs := s.controlSettings
    let cs' : ControlSettings :=
      { modelProvider := patch.modelProvider.getD cs.modelProvider
        audioInputMode := patch.audioInputMode.getD cs.audioInputMode
        prompt := patch.prompt.getD cs.prompt }
    let s' := { s with controlSettings := cs' }
    (s', [⟨.controlSettingsMsg cs', some sender⟩])
  | .updateMixDeck deck data =>
    match parseDeckKey deck with
    | some k =>
      let fixed := applyMixDeckInvariants (applyDeckPatch (s.mixState.decks k) data)
      let s' :=
        { s with mixState :=
            { s.mixState with decks := fun k' => if k' = k then fixed else s.mixState.decks k' } }
      (s', [⟨.mixStateMsg s'.mixState, none⟩])
    | none => (s, [])
  | .updateCrossfader p =>
    match applyCrossfaderUpdate s p with
    | some s' => (s', [⟨.mixStateMsg s'.mixState, none⟩])
    | none => (s, [])
  | .passThrough kind raw => (s, [⟨.passThroughOut kind raw, some sender⟩])
  | .viewerStatusMsg patch =>
    let vs := s.viewerStatus
    let vs' : ViewerStatusState :=
      { isRunning := patch.isRunning.getD vs.isRunning
        isGenerating := patch.isGenerating.getD vs.isGenerating
        error := patch.error.getD vs.error }
    let s' := { s with viewerStatus := vs' }
    (s', [⟨.viewerStatusOut vs', some sender⟩])
  | .deckMediaStateMsg deck payload =>
    match parseDeckKey deck, payload with
    | some k, some ds =>
      let st : DeckMediaState :=
        { isPlaying := optTruthy ds.isPlaying
          progress := jsClamp0100 (toNumber (optCoalesce ds.progress (.num (.fin 0))))
          isLoading := optTruthy ds.isLoading
          error := optTruthy ds.error
          src :=
            match ds.src with
            | some (.str t) => if jsTrim t ≠ [] then JVal.str t else JVal.null
            | _ => JVal.null }
      let s' :=
        { s with deckMediaStates := fun k' => if k' = k then st else s.deckMediaStates k' }
      (s', [⟨.deckMediaOut k st, some sender⟩])
    | _, _ => (s, [])
  | .rtcSignal rtc payload =>
    match rtc with
    | .str r =>
      let rt := jsToLower (jsTrim r)
      if rt ∈ rtcKinds then (s, [⟨.rtcSignalOut rt (payload.getD .null), some sender⟩])
      else (s, [])
    | _ => (s, [])
  | .unknownType => (s, [])

/-- Null test on a modelled JavaScript value. -/
def isNullJV : JVal → Bool
  | .null => true
  | _ => false

/-- Boolean test on a modelled JavaScript value. -/
def isBoolJV : JVal → Bool
  | .bool _ => true
  | _ => false

/-- Test that a value is a finite number in the unit interval. -/
def opacityIn01 : JVal → Bool
  | .num (.fin q) => decide (0 ≤ q ∧ q ≤ 1)
  | _ => false

/-- The deck invariants exactly as the spec claims them (C1): generative
implies no asset; non-media types are null; a null asset or null type
forces both null; opacity in the unit interval; enabled boolean. -/
def deckClaimedInvariants (d : Deck) : Bool :=
  (!isGenerativeType d.type || isNullJV d.assetId) &&
  (isMediaType d.type || isNullJV d.type) &&
  (!(isNullJV d.assetId || isNullJV d.type) || (isNullJV d.assetId && isNullJV d.type)) &&
  opacityIn01 d.opacity &&
  isBoolJV d.enabled

/-- The deck invariants that actually hold after `update-mix-deck`:
bullet three of the claimed invariants is weakened to allow the generative
case, and opacity is NaN exactly when `Number` of the merged opacity is
NaN. `merged` is the deck after the spread merge, `d` the deck after the
invariants. -/
def deckAmendedInvariants (merged d : Deck) : Prop :=
  (isGenerativeType d.type = true → d.assetId = JVal.null)
  ∧ (isMediaType d.type = false → d.type = JVal.null)
  ∧ ((d.assetId = JVal.null ∨ d.type = JVal.null) →
      isGenerativeType d.type = true ∨ (d.assetId = JVal.null ∧ d.type = JVal.null))
  ∧ (if toNumber (jvCoalesce merged.opacity (.num (.fin 1))) = JNum.nan
      then d.opacity = JVal.num .nan
      else ∃ q : ℚ, d.opacity = JVal.num (.fin q) ∧ 0 ≤ q ∧ q ≤ 1)
  ∧ (∃ b : Bool, d.enabled = JVal.bool b)

/-- A generative type value is exactly the string `"generative"`. -/
theorem isGenerativeType_eq {v : JVal} (h : isGenerativeType v = true) :
    v = .str "generative".toList := by
  cases v <;> simp [isGenerativeType] at h ⊢
  exact h

/-- A generative type is a media type. -/
theorem isMediaType_of_generative {v : JVal} (h : isGenerativeType v = true) :
    isMediaType v = true := by
  rw [isGenerativeType_eq h]
  decide

/-- A truthy value is not null. -/
theorem ne_null_of_truthy {v : JVal} (h : truthy v = true) : v ≠ JVal.null := by
  intro e
  subst e
  simp [truthy] at h

/-- The 0-1 clamp of a non-NaN number is a finite rational in the unit
interval. -/
theorem jsClamp01_in01 (x : JNum) (h : x ≠ .nan) :
    ∃ q : ℚ, jsClamp01 x = .fin q ∧ 0 ≤ q ∧ q ≤ 1 := by
  cases x with
  | nan => exact absurd rfl h
  | posInf => exact ⟨1, rfl, by norm_num⟩
  | negInf => exact ⟨0, by simp [jsClamp01, jnumMax, jnumMin], by norm_num⟩
  | fin q =>
    refine ⟨min 1 (max 0 q), rfl, ?_, min_le_left _ _⟩
    exact le_min (by norm_num) (le_max_left _ _)

/-- The 0-1 clamp of NaN is NaN. -/
theorem jsClamp01_nan : jsClamp01 .nan = .nan := rfl

/-- The opacity field written by the deck invariants satisfies the
amended opacity bullet. -/
theorem opacity_bullet (v : JVal) :
    if toNumber (jvCoalesce v (.num (.fin 1))) = JNum.nan
    then JVal.num (jsClamp01 (toNumber (jvCoalesce v (.num (.fin 1))))) = JVal.num .nan
    else ∃ q : ℚ,
      JVal.num (jsClamp01 (toNumber (jvCoalesce v (.num (.fin 1))))) = JVal.num (.fin q)
      ∧ 0 ≤ q ∧ q ≤ 1 := by
  split
  · next h => rw [h, jsClamp01_nan]
  · next h =>
    obtain ⟨q, hq, h0, h1⟩ := jsClamp01_in01 _ h
    exact ⟨q, by rw [hq], h0, h1⟩

/-- Core lemma for C1: the invariants the deck handler enforces. -/
theorem applyMixDeckInvariants_spec (d : Deck) :
    deckAmendedInvariants d (applyMixDeckInvariants d) := by
  refine ⟨?_, ?_, ?_, opacity_bullet d.opacity, ⟨truthy d.enabled, rfl⟩⟩
  · intro hgen
    by_cases hg : isGenerativeType (mixT1 d) = true
    · simp [applyMixDeckInvariants, hg]
    · by_cases hcl : mixClear d = true
      · simp [applyMixDeckInvariants, hg, hcl]
      · simp [applyMixDeckInvariants, hg, hcl] at hgen
  · intro hm
    by_cases hg : isGenerativeType (mixT1 d) = true
    · simp only [applyMixDeckInvariants, hg, if_true] at hm
      rw [isMediaType_of_generative hg] at hm
      exact absurd hm (by simp)
    · by_cases hcl : mixClear d = true
      · simp [applyMixDeckInvariants, hg, hcl]
      · simp only [applyMixDeckInvariants, hg, hcl, if_false, Bool.false_eq_true] at hm ⊢
        by_cases hmd : isMediaType d.type = true
        · rw [mixT1, if_pos hmd] at hm
          exact absurd hmd (by simp [hm])
        · rw [mixT1, if_neg hmd]
  · intro hor
    by_cases hg : isGenerativeType (mixT1 d) = true
    · left
      simp [applyMixDeckInvariants, hg]
    · by_cases hcl : mixClear d = true
      · right
        simp [applyMixDeckInvariants, hg, hcl]
      · exfalso
        have htr : truthy d.assetId = true ∧ truthy (mixT1 d) = true := by
          rw [mixClear] at hcl
          constructor
          · by_contra hx
            rw [Bool.not_eq_true] at hx
            simp [hx] at hcl
          · by_contra hx
            rw [Bool.not_eq_true] at hx
            simp [hx] at hcl
        simp only [applyMixDeckInvariants, hg, hcl, if_false, Bool.false_eq_true] at hor
        rcases hor with h1 | h1
        · exact ne_null_of_truthy htr.1 h1
        · exact ne_null_of_truthy htr.2 h1

/-- A broadcast with no exclusion reaches exactly the open connections. -/
theorem sendRecipients_no_exclude (clients : List Conn) (m : OutMsg) :
    sendRecipients clients ⟨m, none⟩ = openIds clients := by
  unfold sendRecipients openIds
  congr 1
  apply List.filter_congr
  intro c _
  simp

/-- A broadcast excluding `x` reaches exactly the open connections other
than `x`. -/
theorem sendRecipients_exclude (clients : List Conn) (m : OutMsg) (x : ℕ) :
    sendRecipients clients ⟨m, some x⟩ = openIdsExcept clients x := by
  unfold sendRecipients openIdsExcept
  congr 1
  apply List.filter_congr
  intro c _
  congr 1
  exact decide_eq_decide.mpr
    ⟨fun hne he => hne (by rw [he]), fun hne he => hne (Option.some.inj he).symm⟩

/-- Every open connection is among the open identities. -/
theorem mem_openIds {clients : List Conn} {c : Conn} (hc : c ∈ clients)
    (ho : c.isOpen = true) : c.id ∈ openIds clients := by
  unfold openIds
  exact List.mem_map_of_mem _ (List.mem_filter.mpr ⟨hc, ho⟩)

/-- The excluded sender never appears among the recipients of an
excluding broadcast. -/
theorem not_mem_openIdsExcept (clients : List Conn) (sender : ℕ) :
    sender ∉ openIdsExcept clients sender := by
  unfold openIdsExcept
  intro h
  obtain ⟨c, hc, hid⟩ := List.mem_map.mp h
  have := (List.mem_filter.mp hc).2
  simp [hid] at this

/-- C1 counterexample: the message
`{type: "update-mix-deck", payload: {deck: "a", data: {type: "generative",
assetId: "x", opacity: "abc"}}}` applied to the initial state leaves deck
`a` with `type = "generative"` and `assetId = null` — so the claimed
bullet "(assetId = null or type = null) implies both are null" fails —
and with opacity NaN, outside [0, 1]: the claimed invariant conjunction is
false for the resulting deck. -/
theorem c1_deck_invariants_counterexample :
    deckClaimedInvariants
      (((handleMessage 0 initialState (.updateMixDeck (.str ['a'])
          ⟨some (.str "generative".toList), some (.str ['x']),
           some (.str "abc".toList), none⟩)).1).mixState.decks .a) = false := by
  rfl

/-- C1 (amended): for every `update-mix-deck` message whose deck key is
one of {a, b, c, d}, the resulting deck satisfies: generative implies
`assetId = null`; a type outside {shader, video, generative} is null;
a null `assetId` or null type forces both null **unless the type is
"generative"** (where only `assetId` is null); opacity lies in [0, 1]
**when `Number` of the merged opacity (with null defaulting to 1) is not
NaN, and is NaN otherwise**; enabled is a boolean. -/
theorem c1_deck_invariants_amended (sender : ℕ) (s : ServerState) (deck : JVal)
    (k : DeckKey) (data : DeckPatch) (hk : parseDeckKey deck = some k) :
    deckAmendedInvariants (applyDeckPatch (s.mixState.decks k) data)
      (((handleMessage sender s (.updateMixDeck deck data)).1).mixState.decks k) := by
  simp only [handleMessage, hk, if_pos rfl]
  exact applyMixDeckInvariants_spec _

/-- Witness for C1: the amended invariants hold concretely for a valid
video-deck update on the initial state. -/
theorem c1_deck_invariants_witness :
    parseDeckKey (.str ['a']) = some DeckKey.a
    ∧ deckAmendedInvariants
        (applyDeckPatch (initialState.mixState.decks .a)
          ⟨some (.str "video".toList), some (.str "cat/clip.mp4".toList),
           none, some (.bool true)⟩)
        (((handleMessage 0 initialState (.updateMixDeck (.str ['a'])
            ⟨some (.str "video".toList), some (.str "cat/clip.mp4".toList),
             none, some (.bool true)⟩)).1).mixState.decks .a) :=
  ⟨rfl, c1_deck_invariants_amended 0 initialState (.str ['a']) .a _ rfl⟩

/-- Reading the crossfader scalar just written. -/
theorem getCG_setCG (m : MixState) (f : CGField) (v : JNum) :
    getCG (setCG m f v) f = v := by
  cases f <;> rfl

/-- C3: an `update-crossfader` (or `updateCrossfader`) message whose
target, trimmed and lowercased, resolves through the five-entry map
{main↦AB, ab↦AB, ac↦AC, bd↦BD, cd↦CD} and whose value is a finite number
`q` sets that crossfader scalar to `min 1 (max 0 q)` and broadcasts the
entire mix state with no exclusion, so every open connection — the sender
included — receives it; with an unrecognized target the session state is
returned unchanged and no broadcast occurs. -/
theorem c3_crossfader_update (sender : ℕ) (s : ServerState) (clients : List Conn) :
    (∀ (pl : CrossPayload) (t : List Char) (f : CGField) (q : ℚ),
      pl.target = some (.str t) →
      crossfaderFieldMap (jsToLower (jsTrim t)) = some f →
      pl.value = some (.num (.fin q)) →
      getCG (handleMessage sender s (.updateCrossfader (some pl))).1.mixState f
          = .fin (min 1 (max 0 q))
      ∧ (handleMessage sender s (.updateCrossfader (some pl))).2
          = [⟨.mixStateMsg (handleMessage sender s (.updateCrossfader (some pl))).1.mixState,
              none⟩]
      ∧ ∀ a ∈ (handleMessage sender s (.updateCrossfader (some pl))).2,
          sendRecipients clients a = openIds clients)
    ∧ (∀ p : Option CrossPayload, crossTargetField p = none →
        handleMessage sender s (.updateCrossfader p) = (s, [])) := by
  constructor
  · intro pl t f q htarget hfield hvalue
    have hres : handleMessage sender s (.updateCrossfader (some pl))
        = ({ s with mixState := setCG s.mixState f (jsClamp01 (toNumber (.num (.fin q)))) },
           [⟨.mixStateMsg (setCG s.mixState f (jsClamp01 (toNumber (.num (.fin q))))), none⟩]) := by
      simp only [handleMessage, applyCrossfaderUpdate, crossTargetField, htarget, hfield,
        Option.map_some', Option.join, hvalue, optCoalesce]
      rfl
    rw [hres]
    refine ⟨?_, rfl, ?_⟩
    · rw [getCG_setCG]
      rfl
    · intro a ha
      simp only [List.mem_singleton] at ha
      rw [ha]
      exact sendRecipients_no_exclude clients _
  · intro p h
    simp [handleMessage, applyCrossfaderUpdate, h]

/-- Witness for C3: the payload `{target: " AB ", value: 1.5}` on the
initial state sets `crossfaderAB` to `min 1 (max 0 (3/2)) = 1` with an
unexcluded broadcast, and the payload `{target: "xy", value: 1}` leaves
the state untouched with no sends. -/
theorem c3_crossfader_update_witness :
    (getCG (handleMessage 7 initialState
        (.updateCrossfader (some ⟨some (.str " AB ".toList), some (.num (.fin (3 / 2)))⟩))).1.mixState
        .AB = .fin (min 1 (max 0 (3 / 2 : ℚ)))
      ∧ (handleMessage 7 initialState
          (.updateCrossfader (some ⟨some (.str " AB ".toList), some (.num (.fin (3 / 2)))⟩))).2
        = [⟨.mixStateMsg (handleMessage 7 initialState
              (.updateCrossfader (some ⟨some (.str " AB ".toList),
                some (.num (.fin (3 / 2)))⟩))).1.mixState, none⟩]
      ∧ ∀ a ∈ (handleMessage 7 initialState
          (.updateCrossfader (some ⟨some (.str " AB ".toList),
            some (.num (.fin (3 / 2)))⟩))).2,
          sendRecipients [⟨7, true⟩, ⟨8, true⟩] a = openIds [⟨7, true⟩, ⟨8, true⟩])
    ∧ handleMessage 7 initialState
        (.updateCrossfader (some ⟨some (.str "xy".toList), some (.num (.fin 1))⟩))
      = (initialState, []) :=
  ⟨(c3_crossfader_update 7 initialState [⟨7, true⟩, ⟨8, true⟩]).1
      ⟨some (.str " AB ".toList), some (.num (.fin (3 / 2)))⟩
      " AB ".toList .AB (3 / 2) rfl rfl rfl,
   (c3_crossfader_update 7 initialState [⟨7, true⟩, ⟨8, true⟩]).2
      (some ⟨some (.str "xy".toList), some (.num (.fin 1))⟩) rfl⟩

/-- C8: an `update-crossfader` message with a recognized target but an
absent or null `value` sets the crossfader scalar to 0 (the `?? 0`
default, clamped) — not leaving the current value unchanged — and
broadcasts the mix state. -/
theorem c8_crossfader_default_zero (sender : ℕ) (s : ServerState) (pl : CrossPayload)
    (t : List Char) (f : CGField)
    (htarget : pl.target = some (.str t))
    (hfield : crossfaderFieldMap (jsToLower (jsTrim t)) = some f)
    (hvalue : pl.value = none ∨ pl.value = some JVal.null) :
    getCG (handleMessage sender s (.updateCrossfader (some pl))).1.mixState f = .fin 0
    ∧ (handleMessage sender s (.updateCrossfader (some pl))).2
        = [⟨.mixStateMsg (handleMessage sender s
            (.updateCrossfader (some pl))).1.mixState, none⟩] := by
  have hco : optCoalesce ((some pl |>.map CrossPayload.value).join) (.num (.fin 0))
      = JVal.num (.fin 0) := by
    rcases hvalue with h | h <;> simp [optCoalesce, h]
  have hres : handleMessage sender s (.updateCrossfader (some pl))
      = ({ s with mixState := setCG s.mixState f (jsClamp01 (.fin 0)) },
         [⟨.mixStateMsg (setCG s.mixState f (jsClamp01 (.fin 0))), none⟩]) := by
    simp only [handleMessage, applyCrossfaderUpdate, crossTargetField, htarget, hfield, hco,
      toNumber]
  rw [hres]
  refine ⟨?_, rfl⟩
  rw [getCG_setCG]
  rfl

/-- Witness for C8: on the initial state (`crossfaderAB = 1/2`), the
payload `{target: "main"}` with no value resets `crossfaderAB` to 0. -/
theorem c8_crossfader_default_zero_witness :
    getCG initialState.mixState .AB = .fin (1 / 2)
    ∧ (getCG (handleMessage 3 initialState
        (.updateCrossfader (some ⟨some (.str "main".toList), none⟩))).1.mixState .AB = .fin 0
      ∧ (handleMessage 3 initialState
          (.updateCrossfader (some ⟨some (.str "main".toList), none⟩))).2
        = [⟨.mixStateMsg (handleMessage 3 initialState
            (.updateCrossfader (some ⟨some (.str "main".toList), none⟩))).1.mixState, none⟩]) :=
  ⟨rfl, c8_crossfader_default_zero 3 initialState ⟨some (.str "main".toList), none⟩
    "main".toList .AB rfl rfl (Or.inl rfl)⟩

/-- C5: every broadcast triggered by an `update-mix-deck` or crossfader
update carries no exclusion, so its recipients are exactly the open
connections — the originating connection, while open, observes its own
update — whereas every broadcast triggered by `update-fallback-layers`,
`update-control-settings`, `viewer-status` or `deck-media-state` excludes
the sender, so its recipients are exactly the open connections other than
the sender (and never the sender itself). -/
theorem c5_broadcast_exclusion (clients : List Conn) (sender : ℕ) (s : ServerState) :
    (∀ (deck : JVal) (data : DeckPatch),
      ∀ a ∈ (handleMessage sender s (.updateMixDeck deck data)).2,
        a.exclude = none ∧ sendRecipients clients a = openIds clients)
    ∧ (∀ p : Option CrossPayload,
        ∀ a ∈ (handleMessage sender s (.updateCrossfader p)).2,
          a.exclude = none ∧ sendRecipients clients a = openIds clients)
    ∧ (∀ v : JVal,
        ∀ a ∈ (handleMessage sender s (.updateFallbackLayers v)).2,
          a.exclude = some sender ∧ sendRecipients clients a = openIdsExcept clients sender)
    ∧ (∀ patch : ControlPatch,
        ∀ a ∈ (handleMessage sender s (.updateControlSettings patch)).2,
          a.exclude = some sender ∧ sendRecipients clients a = openIdsExcept clients sender)
    ∧ (∀ patch : ViewerPatch,
        ∀ a ∈ (handleMessage sender s (.viewerStatusMsg patch)).2,
          a.exclude = some sender ∧ sendRecipients clients a = openIdsExcept clients sender)
    ∧ (∀ (deck : JVal) (p : Option DeckMediaPatch),
        ∀ a ∈ (handleMessage sender s (.deckMediaStateMsg deck p)).2,
          a.exclude = some sender ∧ sendRecipients clients a = openIdsExcept clients sender)
    ∧ (∀ c ∈ clients, c.isOpen = true → c.id ∈ openIds clients)
    ∧ (sender ∉ openIdsExcept clients sender) := by
  refine ⟨?_, ?_, ?_, ?_, ?_, ?_, fun c hc ho => mem_openIds hc ho,
    not_mem_openIdsExcept clients sender⟩
  · intro deck data a ha
    rcases hk : parseDeckKey deck with _ | k
    · simp [handleMessage, hk] at ha
    · simp only [handleMessage, hk, List.mem_singleton] at ha
      rw [ha]
      exact ⟨rfl, sendRecipients_no_exclude clients _⟩
  · intro p a ha
    rcases hu : applyCrossfaderUpdate s p with _ | s'
    · simp [handleMessage, hu] at ha
    · simp only [handleMessage, hu, List.mem_singleton] at ha
      rw [ha]
      exact ⟨rfl, sendRecipients_no_exclude clients _⟩
  · intro v a ha
    simp only [handleMessage, List.mem_singleton] at ha
    rw [ha]
    exact ⟨rfl, sendRecipients_exclude clients _ sender⟩
  · intro patch a ha
    simp only [handleMessage, List.mem_singleton] at ha
    rw [ha]
    exact ⟨rfl, sendRecipients_exclude clients _ sender⟩
  · intro patch a ha
    simp only [handleMessage, List.mem_singleton] at ha
    rw [ha]
    exact ⟨rfl, sendRecipients_exclude clients _ sender⟩
  · intro deck p a ha
    rcases hk : parseDeckKey deck with _ | k
    · simp [handleMessage, hk] at ha
    · rcases p with _ | ds
      · simp [handleMessage, hk] at ha
      · simp only [handleMessage, hk, List.mem_singleton] at ha
        rw [ha]
        exact ⟨rfl, sendRecipients_exclude clients _ sender⟩

/-- Witness for C5: with two open connections 1 and 2 and sender 1, a
valid deck update's broadcast reaches [1, 2] with no exclusion, and a
fallback-layers update's broadcast reaches only [2]. -/
theorem c5_broadcast_exclusion_witness :
    ((⟨.mixStateMsg (handleMessage 1 initialState
        (.updateMixDeck (.str ['b']) ⟨none, none, none, none⟩)).1.mixState, none⟩ : SendAction).exclude
        = none
      ∧ sendRecipients [⟨1, true⟩, ⟨2, true⟩]
          ⟨.mixStateMsg (handleMessage 1 initialState
            (.updateMixDeck (.str ['b']) ⟨none, none, none, none⟩)).1.mixState, none⟩
        = openIds [⟨1, true⟩, ⟨2, true⟩])
    ∧ ((⟨.fallbackLayersMsg (.arr []), some 1⟩ : SendAction).exclude = some 1
      ∧ sendRecipients [⟨1, true⟩, ⟨2, true⟩] ⟨.fallbackLayersMsg (.arr []), some 1⟩
        = openIdsExcept [⟨1, true⟩, ⟨2, true⟩] 1) :=
  ⟨(c5_broadcast_exclusion [⟨1, true⟩, ⟨2, true⟩] 1 initialState).1 (.str ['b'])
      ⟨none, none, none, none⟩ _ (by simp [handleMessage, parseDeckKey]),
   (c5_broadcast_exclusion [⟨1, true⟩, ⟨2, true⟩] 1 initialState).2.2.1 JVal.null _
      (by simp [handleMessage, truthy])⟩

/-- C7: each of the five pass-through message types
(`start-visualization`, `stop-visualization`, `regenerate-shader`,
`set-audio-sensitivity`, `code-progress`) leaves every field of the
session state unchanged and is relayed verbatim in a single broadcast
excluding the sender, whose recipients are exactly the open connections
other than the sender. -/
theorem c7_pass_through (sender : ℕ) (s : ServerState) (k : PassKind) (raw : JVal)
    (clients : List Conn) :
    handleMessage sender s (.passThrough k raw) = (s, [⟨.passThroughOut k raw, some sender⟩])
    ∧ sendRecipients clients ⟨.passThroughOut k raw, some sender⟩
        = openIdsExcept clients sender :=
  ⟨rfl, sendRecipients_exclude clients _ sender⟩

/-- Result of resolving a `Range` header against a resource size
(`stats.size`): the full resource (no header), a served byte range
(inclusive, both ends), or one of the three 416 rejections the endpoint
distinguishes by response body (`Malformed Range header`, `Invalid
Range`, `Range Not Satisfiable`). -/
inductive RangeResult where
  | fullResource
  | byteRange (rStart rEnd : ℕ)
  | malformed
  | invalidRange
  | notSatisfiable
deriving DecidableEq

/-- Whether a range result is one of the 416 rejections. -/
def RangeResult.isRejection : RangeResult → Bool
  | .malformed => true
  | .invalidRange => true
  | .notSatisfiable => true
  | _ => false

/-- The regex match `/^bytes=(\d*)-(\d*)$/.exec(rangeHeader)`: the header
must be `bytes=` followed by a digit string, `-`, and a digit string
(either digit string may be empty); on success the two capture groups are
returned. A greedy `\d*` is `takeWhile isDigit`. -/
def parseRangeMatch (h : List Char) : Option (List Char × List Char) :=
  if h.take 6 = "bytes=".toList then
    let rest := h.drop 6
    let ds1 := rest.takeWhile Char.isDigit
    match rest.drop ds1.length with
    | '-' :: rest3 =>
      let ds2 := rest3.takeWhile Char.isDigit
      if rest3.drop ds2.length = [] then some (ds1, ds2) else none
    | _ => none
  else none

/-- The range resolution of the streaming endpoint
(`src/server/index.js`, the `rangeHeader` block): the guard
`if (!rangeHeader)` is a truthiness test, so an absent header **or a
header whose value is the empty string** (falsy) serves the full
resource; a non-matching header is malformed (416); the suffix form
`bytes=-N` rejects `N = 0` (`suffixLength <= 0`) and otherwise takes
`start = max(0, size − N)`, `end = size − 1`; the explicit form takes
`start = Number(ds1)` (0 for the empty string), `end = Number(ds2)` or
`size − 1` when absent, rejects `end < start`, then clamps `end` to
`size − 1`; finally `start ≥ size` rejects as not satisfiable. Digit
strings are evaluated with arbitrary precision (exact for every size a
filesystem can report), so the `Number.isFinite` guards never fire. -/
def resolveRange (header : Option (List Char)) (size : ℕ) : RangeResult :=
  match header with
  | none => .fullResource
  | some h =>
    if h = [] then .fullResource
    else
    match parseRangeMatch h with
    | none => .malformed
    | some (ds1, ds2) =>
      if ds1.isEmpty && !ds2.isEmpty then
        let n : ℤ := digitsToNat ds2
        if n ≤ 0 then .invalidRange
        else
          let endI : ℤ := (size : ℤ) - 1
          let startI : ℤ := max 0 ((size : ℤ) - n)
          if startI ≥ (size : ℤ) then .notSatisfiable
          else .byteRange startI.toNat endI.toNat
      else
        let startI : ℤ := digitsToNat ds1
        let endI : ℤ := if ds2.isEmpty then (size : ℤ) - 1 else (digitsToNat ds2 : ℤ)
        if endI < startI then .invalidRange
        else
          let endC : ℤ := min endI ((size : ℤ) - 1)
          if startI ≥ (size : ℤ) then .notSatisfiable
          else .byteRange startI.toNat endC.toNat

/-- C4 counterexample: the claim attributes the rejection of
`bytes=1000-` at size 1000 to the `start ≥ size` check (the
`Range Not Satisfiable` response), but the code rejects it earlier: the
absent end defaults to `size − 1 = 999`, and `999 < 1000` trips the
`end < start` check, producing the `Invalid Range` response instead. -/
theorem c4_range_resolver_counterexample :
    resolveRange (some "bytes=1000-".toList) 1000 = .invalidRange
    ∧ resolveRange (some "bytes=1000-".toList) 1000 ≠ .notSatisfiable := by
  constructor
  · rfl
  · intro h
    rw [show resolveRange (some "bytes=1000-".toList) 1000 = .invalidRange from rfl] at h
    exact RangeResult.noConfusion h

/-- C4 (amended): the range resolution satisfies: `bytes=0-99` at size
1000 is the byte range (0, 99); `bytes=-50` is (950, 999); `bytes=900-2000`
is (900, 999) with the end clamped; `bytes=1000-` is a 416 rejection —
via the `end < start` check (end defaults to 999 < start 1000, the
`Invalid Range` body), not the `start ≥ size` branch; and `notbytes=x` is
a rejection (malformed). -/
theorem c4_range_resolver_amended :
    resolveRange (some "bytes=0-99".toList) 1000 = .byteRange 0 99
    ∧ resolveRange (some "bytes=-50".toList) 1000 = .byteRange 950 999
    ∧ resolveRange (some "bytes=900-2000".toList) 1000 = .byteRange 900 999
    ∧ resolveRange (some "bytes=1000-".toList) 1000 = .invalidRange
    ∧ RangeResult.isRejection (resolveRange (some "bytes=1000-".toList) 1000) = true
    ∧ resolveRange (some "notbytes=x".toList) 1000 = .malformed := by
  refine ⟨rfl, rfl, rfl, rfl, rfl, rfl⟩

/-- C6 counterexample: the header `bytes=-` **does** match the shape
`bytes=(\d*)-(\d*)` (both groups empty) and at size 1000 is not rejected:
start parses as `Number('') = 0`, the end defaults to 999, and the whole
file is served as the byte range (0, 999) with status 206. -/
theorem c6_empty_range_counterexample :
    parseRangeMatch "bytes=-".toList = some ([], [])
    ∧ resolveRange (some "bytes=-".toList) 1000 = .byteRange 0 999
    ∧ RangeResult.isRejection (resolveRange (some "bytes=-".toList) 1000) = false := by
  refine ⟨rfl, rfl, rfl⟩

/-- C6 (amended): `bytes=-` matches the required shape with both sides
empty; the empty start parses as 0 and the empty end defaults to
`size − 1`, so for every size ≥ 1 the request is served as the byte range
(0, size − 1), and only for size 0 is it rejected with 416 (`Invalid
Range`, since the defaulted end −1 is below the start 0). -/
theorem c6_empty_range_amended (size : ℕ) :
    resolveRange (some "bytes=-".toList) size
      = if size = 0 then .invalidRange else .byteRange 0 (size - 1) := by
  have hp : resolveRange (some "bytes=-".toList) size
      = if (size : ℤ) - 1 < 0 then RangeResult.invalidRange
        else if (0 : ℤ) ≥ (size : ℤ) then RangeResult.notSatisfiable
        else RangeResult.byteRange (0 : ℤ).toNat
          (min ((size : ℤ) - 1) ((size : ℤ) - 1)).toNat := rfl
  rw [hp]
  rcases Nat.eq_zero_or_pos size with h0 | hpos
  · subst h0
    rfl
  · rw [if_neg (by omega), if_neg (by omega), if_neg (by omega), min_self]
    congr 1
    omega

/-- Split a character list on `/` (POSIX path segmentation; the result is
always nonempty, and empty segments mark leading, trailing, or doubled
separators). -/
def splitOnSlash : List Char → List (List Char)
  | [] => [[]]
  | c :: rest =>
    match splitOnSlash rest with
    | [] => [[]]
    | s :: ss => if c = '/' then [] :: s :: ss else (c :: s) :: ss

/-- Join segments with `/` separators (inverse of `splitOnSlash` for
slash-free segments). -/
def joinSegs : List (List Char) → List Char
  | [] => []
  | [s] => s
  | s :: rest => s ++ '/' :: joinSegs rest

/-- The segment-stack processing at the heart of Node's
`path.posix.normalize`/`resolve` (`normalizeString`): empty and `.`
segments are dropped; `..` pops a previous real segment, or — only when
`allowAbove` (relative paths) — accumulates; other segments push. -/
def normSegs : List (List Char) → List (List Char) → Bool → List (List Char)
  | [], stack, _ => stack
  | s :: rest, stack, allowAbove =>
    if s = [] || s = ['.'] then normSegs rest stack allowAbove
    else if s = ['.', '.'] then
      match stack.getLast? with
      | some last =>
        if last = ['.', '.'] then
          if allowAbove then normSegs rest (stack ++ [s]) allowAbove
          else normSegs rest stack allowAbove
        else normSegs rest stack.dropLast allowAbove
      | none =>
        if allowAbove then normSegs rest (stack ++ [s]) allowAbove
        else normSegs rest stack allowAbove
    else normSegs rest (stack ++ [s]) allowAbove

/-- Substring test for `'..'` — the model of
`normalizedPath.includes('..')` (true iff two consecutive dots occur
anywhere). -/
def hasDotDot : List Char → Bool
  | [] => false
  | c :: rest => (c = '.' && rest.head? = some '.') || hasDotDot rest

/-- The leading-separator strip `.replace(/^([/\\])+/, '')`: drop every
leading `/` or `\` character. -/
def dropSeps (l : List Char) : List Char :=
  l.dropWhile fun c => c = '/' || c = '\\'

/-- Model of Node's `path.posix.normalize`: resolve `.` and `..`
segments (`..` may accumulate above the start of a relative path),
collapse repeated separators, preserve a trailing separator, and return
`.` (or `/` for an absolute input) when everything cancels. -/
def pathNormalize (cs : List Char) : List Char :=
  if cs = [] then ['.']
  else
    let isAbs := cs.head? = some '/'
    let hasTrail := cs.getLast? = some '/'
    let body := joinSegs (normSegs (splitOnSlash cs) [] (!isAbs))
    if body = [] then
      if isAbs then ['/']
      else if hasTrail then ['.', '/'] else ['.']
    else
      let body2 := if hasTrail then body ++ ['/'] else body
      if isAbs then '/' :: body2 else body2

/-- Model of Node's `path.posix.resolve(root, p)` for an absolute `root`
(the server's `mp4Dir` is itself produced by `path.resolve`, hence
absolute): an absolute `p` stands alone, otherwise `root + '/' + p`; the
combination is normalized with no accumulation above the root. -/
def pathResolve2 (root p : List Char) : List Char :=
  let combined := if p.head? = some '/' then p else root ++ '/' :: p
  let body := joinSegs (normSegs (splitOnSlash combined) [] false)
  if body = [] then ['/'] else '/' :: body

/-- Prefix test on character lists (model of `String.prototype.startsWith`). -/
def listStartsWith : List Char → List Char → Bool
  | [], _ => true
  | _, [] => false
  | a :: as, b :: bs => a == b && listStartsWith as bs

/-- The containment check
`absolutePath === mp4Dir || absolutePath.startsWith(mp4Dir + path.sep)`. -/
def isInsideRoot (root abs : List Char) : Bool :=
  abs == root || listStartsWith (root ++ ['/']) abs

/-- Outcome of the streaming endpoint's path validation, before any
filesystem access: 404 for an empty (trimmed) logical path, 400 for a
traversal or out-of-root path, otherwise the absolute path handed to
`fs.promises.stat`. -/
inductive StreamPathDecision where
  | notFound
  | badPath
  | statAt (abs : List Char)

/-- The path validation of `GET /stream/mp4/<path>`: trim the captured
path (404 if empty), normalize and strip leading separators, reject any
result still containing `..` (400), resolve against the asset root, and
reject a resolved path that is neither the root nor strictly inside it
(400). Only a surviving path reaches `fs.promises.stat`. -/
def streamPathDecision (root req : List Char) : StreamPathDecision :=
  let requested := jsTrim req
  if requested = [] then .notFound
  else
    let normalized := dropSeps (pathNormalize requested)
    if hasDotDot normalized then .badPath
    else
      let abs := pathResolve2 root normalized
      if isInsideRoot root abs then .statAt abs else .badPath

/-- The absolute path the endpoint stats for a request, if any: `none`
means the request was answered (400 or 404) with no filesystem access. -/
def streamStatTarget (root req : List Char) : Option (List Char) :=
  match streamPathDecision root req with
  | .statAt abs => some abs
  | _ => none

/-- Stat result for a path: present with a regular-file flag and size. -/
structure FileInfo where
  isFile : Bool
  size : ℕ

/-- Full HTTP outcome of `GET /stream/mp4/<path>` (streaming I/O errors
after the response starts are outside the model). -/
inductive StreamResult where
  | notFound
  | invalidPath
  | fullStream (size : ℕ)
  | partialStream (rStart rEnd size : ℕ)
  | r416malformed (size : ℕ)
  | r416invalid (size : ℕ)
  | r416notSatisfiable (size : ℕ)
deriving DecidableEq

/-- Whether a streaming outcome is a 416 response (all of which carry
`Content-Range: bytes */<size>`). -/
def StreamResult.is416 : StreamResult → Bool
  | .r416malformed _ => true
  | .r416invalid _ => true
  | .r416notSatisfiable _ => true
  | _ => false

/-- The `Content-Range` header of a 416 response: `bytes */<size>`. -/
def streamContentRange : StreamResult → Option (List Char)
  | .r416malformed size => some ("bytes */".toList ++ (Nat.toDigits 10 size))
  | .r416invalid size => some ("bytes */".toList ++ (Nat.toDigits 10 size))
  | .r416notSatisfiable size => some ("bytes */".toList ++ (Nat.toDigits 10 size))
  | _ => none

/-- The complete streaming endpoint over a filesystem oracle `fsys`
(mapping absolute paths to stat results; `none` covers ENOENT and stat
errors, both answered 404): path validation, the regular-file check, then
range resolution on the stat'ed size. -/
def streamEndpoint (root : List Char) (fsys : List Char → Option FileInfo)
    (req : List Char) (rangeHeader : Option (List Char)) : StreamResult :=
  match streamPathDecision root req with
  | .notFound => .notFound
  | .badPath => .invalidPath
  | .statAt abs =>
    match fsys abs with
    | none => .notFound
    | some info =>
      if !info.isFile then .notFound
      else
        match resolveRange rangeHeader info.size with
        | .fullResource => .fullStream info.size
        | .byteRange a b => .partialStream a b info.size
        | .malformed => .r416malformed info.size
        | .invalidRange => .r416invalid info.size
        | .notSatisfiable => .r416notSatisfiable info.size

/-- A root directory string as `path.resolve` produces it: absolute,
normalized, with at least one real segment and no empty, dot, or
dot-dot segments. The server's `mp4Dir = path.resolve(__dirname, '../mp4')`
has this shape. -/
def goodRoot (root : List Char) : Prop :=
  ∃ L, L ≠ [] ∧ (∀ s ∈ L, s ≠ [] ∧ '/' ∉ s ∧ s ≠ ['.'] ∧ s ≠ ['.', '.'])
    ∧ root = '/' :: joinSegs L

/-- Unfolding equation for `splitOnSlash` on a cons cell. -/
theorem splitOnSlash_cons (c : Char) (rest s : List Char) (ss : List (List Char))
    (h : splitOnSlash rest = s :: ss) :
    splitOnSlash (c :: rest) = if c = '/' then [] :: s :: ss else (c :: s) :: ss := by
  unfold splitOnSlash
  rw [h]

/-- Splitting on `/` never yields the empty list. -/
theorem splitOnSlash_ne_nil (cs : List Char) : splitOnSlash cs ≠ [] := by
  induction cs with
  | nil => simp [splitOnSlash]
  | cons c rest ih =>
    rcases h : splitOnSlash rest with _ | ⟨s, ss⟩
    · exact absurd h ih
    · rw [splitOnSlash_cons c rest s ss h]
      split <;> simp

/-- Splitting a `/`-prefixed list produces a leading empty segment. -/
theorem splitOnSlash_cons_slash (x : List Char) :
    splitOnSlash ('/' :: x) = [] :: splitOnSlash x := by
  rcases h : splitOnSlash x with _ | ⟨s, ss⟩
  · exact absurd h (splitOnSlash_ne_nil x)
  · rw [splitOnSlash_cons '/' x s ss h, if_pos rfl]

/-- The first segment of a split is a prefix of the input. -/
theorem splitOnSlash_head_restores (cs : List Char) :
    ∀ s ss, splitOnSlash cs = s :: ss → ∃ t, cs = s ++ t := by
  induction cs with
  | nil =>
    intro s ss h
    simp [splitOnSlash] at h
    exact ⟨[], by simp [h.1]⟩
  | cons c rest ih =>
    intro s ss h
    rcases hr : splitOnSlash rest with _ | ⟨s', ss'⟩
    · exact absurd hr (splitOnSlash_ne_nil rest)
    · rw [splitOnSlash_cons c rest s' ss' hr] at h
      by_cases hc : c = '/'
      · rw [if_pos hc] at h
        exact ⟨c :: rest, by simp [(List.cons.injEq _ _ _ _ ▸ h).1.symm]⟩
      · rw [if_neg hc] at h
        obtain ⟨h1, _⟩ := List.cons.injEq _ _ _ _ ▸ h
        obtain ⟨t, ht⟩ := ih s' ss' hr
        exact ⟨t, by rw [← h1, ht]; simp⟩

/-- Two consecutive dots at the head are found by `hasDotDot`. -/
theorem hasDotDot_dotdot (t : List Char) : hasDotDot ('.' :: '.' :: t) = true := by
  simp [hasDotDot]

/-- `hasDotDot` is monotone under cons. -/
theorem hasDotDot_cons_of {rest : List Char} (c : Char) (h : hasDotDot rest = true) :
    hasDotDot (c :: rest) = true := by
  unfold hasDotDot
  rw [h]
  simp

/-- A `..` segment in the split implies the substring `..` occurs. -/
theorem hasDotDot_of_dotdot_seg (cs : List Char) :
    ['.', '.'] ∈ splitOnSlash cs → hasDotDot cs = true := by
  induction cs with
  | nil =>
    intro h
    simp [splitOnSlash] at h
  | cons c rest ih =>
    intro h
    rcases hr : splitOnSlash rest with _ | ⟨s', ss'⟩
    · exact absurd hr (splitOnSlash_ne_nil rest)
    · rw [splitOnSlash_cons c rest s' ss' hr] at h
      by_cases hc : c = '/'
      · rw [if_pos hc, List.mem_cons] at h
        rcases h with h | h
        · simp at h
        · exact hasDotDot_cons_of c (ih (by rw [hr]; exact h))
      · rw [if_neg hc, List.mem_cons] at h
        rcases h with h | h
        · injection h with ha hb
          obtain ⟨t, ht⟩ := splitOnSlash_head_restores rest s' ss' hr
          rw [ht, ← hb, ← ha]
          exact hasDotDot_dotdot t
        · exact hasDotDot_cons_of c
            (ih (by rw [hr]; exact List.mem_cons_of_mem s' h))

/-- Splitting distributes over a separator-joined concatenation. -/
theorem splitOnSlash_append (a b : List Char) :
    splitOnSlash (a ++ '/' :: b) = splitOnSlash a ++ splitOnSlash b := by
  induction a with
  | nil =>
    rw [List.nil_append, splitOnSlash_cons_slash]
    rfl
  | cons c a' ih =>
    show splitOnSlash (c :: (a' ++ '/' :: b)) = splitOnSlash (c :: a') ++ splitOnSlash b
    rcases h1 : splitOnSlash (a' ++ '/' :: b) with _ | ⟨s, ss⟩
    · exact absurd h1 (splitOnSlash_ne_nil _)
    · rcases h2 : splitOnSlash a' with _ | ⟨s', ss'⟩
      · exact absurd h2 (splitOnSlash_ne_nil a')
      · rw [splitOnSlash_cons c _ s ss h1, splitOnSlash_cons c a' s' ss' h2]
        rw [ih, h2] at h1
        obtain ⟨hs, hss⟩ := List.cons.injEq _ _ _ _ ▸ h1
        by_cases hc : c = '/'
        · rw [if_pos hc, if_pos hc, ← hs, ← hss]
          simp
        · rw [if_neg hc, if_neg hc, ← hs, ← hss]
          simp

/-- A slash-free list splits into itself. -/
theorem splitOnSlash_slashfree (s : List Char) (h : '/' ∉ s) :
    splitOnSlash s = [s] := by
  induction s with
  | nil => rfl
  | cons c rest ih =>
    have hc : c ≠ '/' := fun e => h (e ▸ List.mem_cons_self c rest)
    have hrest : '/' ∉ rest := fun e => h (List.mem_cons_of_mem c e)
    rw [splitOnSlash_cons c rest rest [] (ih hrest), if_neg hc]

/-- Splitting inverts joining for nonempty slash-free segment lists. -/
theorem splitOnSlash_joinSegs (L : List (List Char)) (hne : L ≠ [])
    (hsf : ∀ s ∈ L, '/' ∉ s) : splitOnSlash (joinSegs L) = L := by
  induction L with
  | nil => exact absurd rfl hne
  | cons s rest ih =>
    rcases rest with _ | ⟨s', rest'⟩
    · exact splitOnSlash_slashfree s (hsf s (List.mem_cons_self _ _))
    · show splitOnSlash (s ++ '/' :: joinSegs (s' :: rest')) = _
      rw [splitOnSlash_append, splitOnSlash_slashfree s (hsf s (List.mem_cons_self _ _)),
        ih (by simp) (fun x hx => hsf x (List.mem_cons_of_mem s hx))]
      rfl

/-- Unfolding equation for `normSegs` on a cons cell. -/
theorem normSegs_cons (s : List Char) (rest stack : List (List Char)) (b : Bool) :
    normSegs (s :: rest) stack b =
      if (s = [] || s = ['.'] : Bool) then normSegs rest stack b
      else if s = ['.', '.'] then
        match stack.getLast? with
        | some last =>
          if last = ['.', '.'] then
            if b then normSegs rest (stack ++ [s]) b else normSegs rest stack b
          else normSegs rest stack.dropLast b
        | none => if b then normSegs rest (stack ++ [s]) b else normSegs rest stack b
      else normSegs rest (stack ++ [s]) b := rfl

/-- Processing a concatenation of segment lists threads the stack. -/
theorem normSegs_append (xs ys : List (List Char)) (st : List (List Char)) (b : Bool) :
    normSegs (xs ++ ys) st b = normSegs ys (normSegs xs st b) b := by
  induction xs generalizing st with
  | nil => rfl
  | cons s rest ih =>
    rw [List.cons_append, normSegs_cons, normSegs_cons]
    by_cases h1 : (s = [] || s = ['.'] : Bool) = true
    · rw [if_pos h1, if_pos h1]
      exact ih st
    · rw [if_neg h1, if_neg h1]
      by_cases h2 : s = ['.', '.']
      · rw [if_pos h2, if_pos h2]
        cases hl : st.getLast? with
        | none =>
          dsimp only
          by_cases h3 : b = true
          · rw [if_pos h3, if_pos h3]
            exact ih _
          · rw [if_neg h3, if_neg h3]
            exact ih st
        | some last =>
          dsimp only
          by_cases h4 : last = ['.', '.']
          · rw [if_pos h4, if_pos h4]
            by_cases h3 : b = true
            · rw [if_pos h3, if_pos h3]
              exact ih _
            · rw [if_neg h3, if_neg h3]
              exact ih st
          · rw [if_neg h4, if_neg h4]
            exact ih _
      · rw [if_neg h2, if_neg h2]
        exact ih _

/-- With no `..` segment, processing only filters out empty and dot
segments, appending the rest to the stack. -/
theorem normSegs_no_dotdot (segs : List (List Char)) (st : List (List Char)) (b : Bool)
    (h : ∀ s ∈ segs, s ≠ ['.', '.']) :
    normSegs segs st b = st ++ segs.filter (fun s => !(s = [] || s = ['.'] : Bool)) := by
  induction segs generalizing st with
  | nil => simp [normSegs]
  | cons s rest ih =>
    have hs : s ≠ ['.', '.'] := h s (List.mem_cons_self _ _)
    have hrest : ∀ x ∈ rest, x ≠ ['.', '.'] := fun x hx => h x (List.mem_cons_of_mem s hx)
    unfold normSegs
    by_cases hsd : (s = [] || s = ['.'] : Bool) = true
    · rw [if_pos hsd, ih st hrest, List.filter_cons_of_neg (by simp [hsd])]
    · rw [if_neg hsd, if_neg (by simp_all), ih _ hrest,
        List.filter_cons_of_pos (by simp [hsd]), List.append_assoc]
      rfl

/-- Joining a nonempty list of nonempty segments is nonempty. -/
theorem joinSegs_ne_nil (L : List (List Char)) (hne : L ≠ [])
    (hs : ∀ s ∈ L, s ≠ []) : joinSegs L ≠ [] := by
  rcases L with _ | ⟨s, rest⟩
  · exact absurd rfl hne
  · rcases rest with _ | ⟨s', rest'⟩
    · exact hs s (List.mem_cons_self _ _)
    · show s ++ '/' :: joinSegs (s' :: rest') ≠ []
      rcases s with _ | ⟨c, cs⟩
      · simp
      · simp

/-- Joining distributes over concatenation of nonempty segment lists. -/
theorem joinSegs_append (a b : List (List Char)) (hb : b ≠ []) :
    a ≠ [] → joinSegs (a ++ b) = joinSegs a ++ '/' :: joinSegs b := by
  induction a with
  | nil => exact fun ha => absurd rfl ha
  | cons s rest ih =>
    intro _
    rcases rest with _ | ⟨s', rest'⟩
    · rcases b with _ | ⟨t, bs⟩
      · exact absurd rfl hb
      · rfl
    · rw [List.cons_append]
      have h1 : joinSegs (s :: (s' :: rest' ++ b)) = s ++ '/' :: joinSegs (s' :: rest' ++ b) := by
        rfl
      rw [h1, ih (by simp)]
      show _ = (s ++ '/' :: joinSegs (s' :: rest')) ++ '/' :: joinSegs b
      simp

/-- A list starts with itself followed by anything. -/
theorem listStartsWith_append (a b : List Char) : listStartsWith a (a ++ b) = true := by
  induction a with
  | nil => simp [listStartsWith]
  | cons c rest ih =>
    rw [List.cons_append]
    show (c == c && listStartsWith rest (rest ++ b)) = true
    rw [ih]
    simp

/-- Main containment lemma: resolving a relative, traversal-free path
against a well-formed absolute root lands at the root or strictly inside
it. -/
theorem resolve_inside (root p : List Char) (hroot : goodRoot root)
    (hp : p.head? ≠ some '/') (hdd : hasDotDot p = false) :
    isInsideRoot root (pathResolve2 root p) = true := by
  obtain ⟨L, hLne, hLseg, hRoot⟩ := hroot
  have hsf : ∀ s ∈ L, '/' ∉ s := fun s hs => (hLseg s hs).2.1
  have hcomb : (if p.head? = some '/' then p else root ++ '/' :: p) = root ++ '/' :: p :=
    if_neg hp
  have hsplit : splitOnSlash (root ++ '/' :: p) = ([] :: L) ++ splitOnSlash p := by
    rw [hRoot]
    show splitOnSlash ('/' :: (joinSegs L ++ '/' :: p)) = _
    rw [splitOnSlash_cons_slash, splitOnSlash_append,
      splitOnSlash_joinSegs L hLne hsf]
    rfl
  have hpseg : ∀ s ∈ splitOnSlash p, s ≠ ['.', '.'] := by
    intro s hs he
    subst he
    rw [hasDotDot_of_dotdot_seg p hs] at hdd
    cases hdd
  have hrootSegs : normSegs ([] :: L) [] false = L := by
    show normSegs ([] :: L) [] false = L
    unfold normSegs
    rw [if_pos (by simp)]
    rw [normSegs_no_dotdot L [] false (fun s hs => (hLseg s hs).2.2.2)]
    rw [List.filter_eq_self.mpr]
    · rfl
    · intro s hs
      simp [(hLseg s hs).1, (hLseg s hs).2.2.1]
  have hns : normSegs (splitOnSlash (root ++ '/' :: p)) [] false
      = L ++ (splitOnSlash p).filter (fun s => !(s = [] || s = ['.'] : Bool)) := by
    rw [hsplit, normSegs_append, hrootSegs, normSegs_no_dotdot _ _ _ hpseg]
  simp only [pathResolve2]
  rw [hcomb, hns]
  rcases hpf : (splitOnSlash p).filter (fun s => !(s = [] || s = ['.'] : Bool)) with _ | ⟨f, fs⟩
  · rw [hpf, List.append_nil]
    have hjoin : joinSegs L ≠ [] := joinSegs_ne_nil L hLne (fun s hs => (hLseg s hs).1)
    rw [if_neg hjoin, ← hRoot]
    simp [isInsideRoot]
  · have hfs : joinSegs (L ++ f :: fs) = joinSegs L ++ '/' :: joinSegs (f :: fs) :=
      joinSegs_append L (f :: fs) (by simp) hLne
    rw [hpf, hfs]
    have hne2 : joinSegs L ++ '/' :: joinSegs (f :: fs) ≠ [] := by simp
    rw [if_neg hne2]
    unfold isInsideRoot
    have heq : '/' :: (joinSegs L ++ '/' :: joinSegs (f :: fs))
        = (root ++ ['/']) ++ joinSegs (f :: fs) := by
      rw [hRoot]
      simp
    rw [heq, listStartsWith_append]
    simp

/-- The head surviving a `dropWhile` fails the predicate. -/
theorem dropWhile_head_false (p : Char → Bool) (l : List Char) (c : Char)
    (h : (l.dropWhile p).head? = some c) : p c = false := by
  induction l with
  | nil => simp [List.dropWhile] at h
  | cons c' rest ih =>
    rw [List.dropWhile_cons] at h
    by_cases hp : p c' = true
    · rw [if_pos hp] at h
      exact ih h
    · rw [if_neg hp] at h
      simp only [List.head?_cons, Option.some.injEq] at h
      simp only [Bool.not_eq_true] at hp
      rw [← h]
      exact hp

/-- `hasDotDot` found in a `dropWhile` suffix is found in the whole. -/
theorem hasDotDot_of_dropWhile (p : Char → Bool) (l : List Char)
    (h : hasDotDot (l.dropWhile p) = true) : hasDotDot l = true := by
  induction l with
  | nil => simpa [List.dropWhile] using h
  | cons c rest ih =>
    rw [List.dropWhile_cons] at h
    by_cases hp : p c = true
    · rw [if_pos hp] at h
      exact hasDotDot_cons_of c (ih h)
    · rw [if_neg hp] at h
      exact h

/-- Trimming keeps a list with a non-whitespace head nonempty. -/
theorem jsTrim_ne_nil_of_head {l : List Char} {c : Char} (hc : l.head? = some c)
    (hw : jsWhitespace c = false) : jsTrim l ≠ [] := by
  rcases l with _ | ⟨c', rest⟩
  · simp at hc
  · simp only [List.head?_cons, Option.some.injEq] at hc
    have hw' : jsWhitespace c' = false := by rw [hc]; exact hw
    unfold jsTrim
    rw [List.dropWhile_cons, if_neg (by rw [hw']; simp)]
    intro hnil
    have h2 : (c' :: rest).reverse.dropWhile jsWhitespace = [] := by
      have := congrArg List.reverse hnil
      simpa using this
    have h3 := (List.dropWhile_eq_nil_iff.mp h2) c' (by simp)
    rw [hw'] at h3
    cases h3

/-- Inversion for the path decision: a stat'ed path passed the
containment check. -/
theorem streamPathDecision_statAt (root req abs : List Char)
    (h : streamPathDecision root req = .statAt abs) : isInsideRoot root abs = true := by
  simp only [streamPathDecision] at h
  by_cases h1 : jsTrim req = []
  · rw [if_pos h1] at h
    exact absurd h (by simp)
  · rw [if_neg h1] at h
    by_cases h2 : hasDotDot (dropSeps (pathNormalize (jsTrim req))) = true
    · rw [if_pos h2] at h
      exact absurd h (by simp)
    · rw [if_neg h2] at h
      by_cases h3 : isInsideRoot root
          (pathResolve2 root (dropSeps (pathNormalize (jsTrim req)))) = true
      · rw [if_pos h3] at h
        injection h with h4
        rw [← h4]
        exact h3
      · rw [if_neg h3] at h
        exact absurd h (by simp)

/-- A stat target determines the decision. -/
theorem streamStatTarget_statAt (root req abs : List Char)
    (h : streamStatTarget root req = some abs) :
    streamPathDecision root req = .statAt abs := by
  unfold streamStatTarget at h
  cases hd : streamPathDecision root req <;> rw [hd] at h
  · exact absurd h (by simp)
  · exact absurd h (by simp)
  · injection h with h1
    rw [← h1]

/-- C2: for every request to the streaming endpoint, any path that is
handed to `fs.promises.stat` is equal to, or strictly inside, the video
asset root (requests rejected with 400 or 404 perform no filesystem
access: their stat target is `none`); in particular, the logical path
`"../../etc/passwd"` is answered 400 with no stat, for every root. -/
theorem c2_path_traversal (root req : List Char) :
    (∀ abs, streamStatTarget root req = some abs → isInsideRoot root abs = true)
    ∧ streamStatTarget root "../../etc/passwd".toList = none
    ∧ streamPathDecision root "../../etc/passwd".toList = .badPath :=
  ⟨fun abs h => streamPathDecision_statAt root req abs (streamStatTarget_statAt root req abs h),
   rfl, rfl⟩

/-- Witness for C2: the request `cat/clip.mp4` against the root
`/srv/mp4` is stat'ed at `/srv/mp4/cat/clip.mp4`, which is inside the
root. -/
theorem c2_path_traversal_witness :
    streamStatTarget "/srv/mp4".toList "cat/clip.mp4".toList
        = some "/srv/mp4/cat/clip.mp4".toList
    ∧ isInsideRoot "/srv/mp4".toList "/srv/mp4/cat/clip.mp4".toList = true :=
  ⟨rfl, (c2_path_traversal "/srv/mp4".toList "cat/clip.mp4".toList).1
    "/srv/mp4/cat/clip.mp4".toList rfl⟩

/-- C10: a requested path beginning with a `/` or `\` separator whose
normalization contains no `..` is never rejected by the 400 checks: the
leading separators are stripped, the remainder resolves to, or strictly
inside, the asset root, that path is stat'ed, and a missing file there
yields 404 for any range header. -/
theorem c10_absolute_path_lookup (root : List Char) (fsys : List Char → Option FileInfo)
    (req : List Char) (hroot : goodRoot root)
    (hsep : req.head? = some '/' ∨ req.head? = some '\\')
    (hdd : hasDotDot (pathNormalize (jsTrim req)) = false) :
    ∃ abs, streamPathDecision root req = .statAt abs
      ∧ isInsideRoot root abs = true
      ∧ ∀ rangeHeader, fsys abs = none →
          streamEndpoint root fsys req rangeHeader = .notFound := by
  have hc : ∃ c, req.head? = some c ∧ jsWhitespace c = false := by
    rcases hsep with h | h
    · exact ⟨'/', h, by decide⟩
    · exact ⟨'\\', h, by decide⟩
  obtain ⟨c, hc1, hc2⟩ := hc
  have hne := jsTrim_ne_nil_of_head hc1 hc2
  have hdd2 : hasDotDot (dropSeps (pathNormalize (jsTrim req))) = false := by
    rcases hb : hasDotDot (dropSeps (pathNormalize (jsTrim req))) with _ | _
    · rfl
    · rw [hasDotDot_of_dropWhile _ _ hb] at hdd
      cases hdd
  have hph : (dropSeps (pathNormalize (jsTrim req))).head? ≠ some '/' := by
    intro h
    have := dropWhile_head_false _ _ '/' h
    simp at this
  have hin := resolve_inside root (dropSeps (pathNormalize (jsTrim req))) hroot hph hdd2
  have hdec : streamPathDecision root req
      = .statAt (pathResolve2 root (dropSeps (pathNormalize (jsTrim req)))) := by
    simp only [streamPathDecision]
    rw [if_neg hne, hdd2, if_neg (by simp), hin, if_pos rfl]
  refine ⟨_, hdec, hin, ?_⟩
  intro rangeHeader hfs
  simp only [streamEndpoint, hdec, hfs]

/-- Witness for C10: the absolute-looking request `/etc/passwd` against
the root `/srv/mp4` is stat'ed at `/srv/mp4/etc/passwd` — inside the
root — and 404s on an empty filesystem. -/
theorem c10_absolute_path_lookup_witness :
    ∃ abs, streamPathDecision "/srv/mp4".toList "/etc/passwd".toList = .statAt abs
      ∧ isInsideRoot "/srv/mp4".toList abs = true
      ∧ ∀ rangeHeader, (fun _ : List Char => (none : Option FileInfo)) abs = none →
          streamEndpoint "/srv/mp4".toList (fun _ => none) "/etc/passwd".toList rangeHeader
            = .notFound :=
  c10_absolute_path_lookup "/srv/mp4".toList (fun _ => none) "/etc/passwd".toList
    ⟨[['s', 'r', 'v'], ['m', 'p', '4']], by simp, by decide, rfl⟩
    (Or.inl rfl) rfl

/-- At resource size 0, every Range header with a nonempty (truthy)
value — whatever its content — is rejected with one of the three 416
outcomes. -/
theorem resolveRange_size_zero (h : List Char) (hne : h ≠ []) :
    resolveRange (some h) 0 = .malformed ∨ resolveRange (some h) 0 = .invalidRange
    ∨ resolveRange (some h) 0 = .notSatisfiable := by
  unfold resolveRange
  dsimp only
  rw [if_neg hne]
  rcases hp : parseRangeMatch h with _ | ⟨ds1, ds2⟩
  · exact Or.inl rfl
  · dsimp only
    by_cases hc : (ds1.isEmpty && !ds2.isEmpty) = true
    · rw [if_pos hc]
      by_cases hn : (digitsToNat ds2 : ℤ) ≤ 0
      · rw [if_pos hn]
        exact Or.inr (Or.inl rfl)
      · have hcond : max 0 (((0 : ℕ) : ℤ) - (digitsToNat ds2 : ℤ)) ≥ ((0 : ℕ) : ℤ) := by
          simp
        rw [if_neg hn, if_pos hcond]
        exact Or.inr (Or.inr rfl)
    · rw [if_neg hc]
      by_cases he : (if ds2.isEmpty then ((0 : ℕ) : ℤ) - 1 else (digitsToNat ds2 : ℤ))
          < (digitsToNat ds1 : ℤ)
      · rw [if_pos he]
        exact Or.inr (Or.inl rfl)
      · have hcond : (digitsToNat ds1 : ℤ) ≥ ((0 : ℕ) : ℤ) := by
          exact_mod_cast Nat.zero_le _
        rw [if_neg he, if_pos hcond]
        exact Or.inr (Or.inr rfl)

/-- C9 counterexample: a request for a zero-size regular file that
carries a Range header whose value is the **empty string** is not
rejected with 416 — the `if (!rangeHeader)` truthiness guard treats the
falsy `''` as an absent header, so the empty file is streamed with
status 200 and `Content-Length: 0`, refuting the claim that every
request carrying a Range header of any content receives a 416. -/
theorem c9_zero_size_counterexample :
    streamEndpoint "/srv/mp4".toList
      (fun p => if p = "/srv/mp4/a.mp4".toList then some ⟨true, 0⟩ else none)
      "a.mp4".toList (some []) = .fullStream 0
    ∧ (streamEndpoint "/srv/mp4".toList
        (fun p => if p = "/srv/mp4/a.mp4".toList then some ⟨true, 0⟩ else none)
        "a.mp4".toList (some [])).is416 = false :=
  ⟨rfl, rfl⟩

/-- C9 (amended): for a regular file of size 0, every request carrying a
Range header with a **nonempty** value — well-formed or not — receives a
416 response with `Content-Range: bytes */0`; a request with no Range
header, **or one whose value is the empty string** (falsy, taken by the
`if (!rangeHeader)` guard), streams the empty file with status 200 and
`Content-Length: 0`. -/
theorem c9_zero_size_file (root : List Char) (fsys : List Char → Option FileInfo)
    (req abs : List Char)
    (hdec : streamPathDecision root req = .statAt abs)
    (hfs : fsys abs = some ⟨true, 0⟩) :
    (∀ h : List Char, h ≠ [] →
      (streamEndpoint root fsys req (some h)).is416 = true
      ∧ streamContentRange (streamEndpoint root fsys req (some h))
          = some "bytes */0".toList)
    ∧ streamEndpoint root fsys req none = .fullStream 0
    ∧ streamEndpoint root fsys req (some []) = .fullStream 0 := by
  have hbase : ∀ rh, streamEndpoint root fsys req rh =
      (match resolveRange rh 0 with
        | .fullResource => .fullStream 0
        | .byteRange a b => .partialStream a b 0
        | .malformed => .r416malformed 0
        | .invalidRange => .r416invalid 0
        | .notSatisfiable => .r416notSatisfiable 0) := by
    intro rh
    simp only [streamEndpoint, hdec, hfs]
    rfl
  refine ⟨?_, ?_, ?_⟩
  · intro h hne
    rw [hbase (some h)]
    rcases resolveRange_size_zero h hne with h1 | h1 | h1 <;> rw [h1] <;> exact ⟨rfl, rfl⟩
  · rw [hbase none]
    rfl
  · rw [hbase (some [])]
    rfl

/-- Witness for C9: against the root `/srv/mp4` with a zero-size regular
file at `/srv/mp4/a.mp4`, the request `a.mp4` with `Range: bytes=5-`
gets a 416 with `Content-Range: bytes */0`, and with no Range header —
or an empty-valued one — gets a 200 with `Content-Length: 0`. -/
theorem c9_zero_size_file_witness :
    ((streamEndpoint "/srv/mp4".toList
        (fun p => if p = "/srv/mp4/a.mp4".toList then some ⟨true, 0⟩ else none)
        "a.mp4".toList (some "bytes=5-".toList)).is416 = true
      ∧ streamContentRange (streamEndpoint "/srv/mp4".toList
          (fun p => if p = "/srv/mp4/a.mp4".toList then some ⟨true, 0⟩ else none)
          "a.mp4".toList (some "bytes=5-".toList)) = some "bytes */0".toList)
    ∧ streamEndpoint "/srv/mp4".toList
        (fun p => if p = "/srv/mp4/a.mp4".toList then some ⟨true, 0⟩ else none)
        "a.mp4".toList none = .fullStream 0
    ∧ streamEndpoint "/srv/mp4".toList
        (fun p => if p = "/srv/mp4/a.mp4".toList then some ⟨true, 0⟩ else none)
        "a.mp4".toList (some []) = .fullStream 0 :=
  ⟨(c9_zero_size_file "/srv/mp4".toList
      (fun p => if p = "/srv/mp4/a.mp4".toList then some ⟨true, 0⟩ else none)
      "a.mp4".toList "/srv/mp4/a.mp4".toList rfl (by rfl)).1 "bytes=5-".toList (by decide),
   (c9_zero_size_file "/srv/mp4".toList
      (fun p => if p = "/srv/mp4/a.mp4".toList then some ⟨true, 0⟩ else none)
      "a.mp4".toList "/srv/mp4/a.mp4".toList rfl (by rfl)).2⟩
